import Mathlib

/-!
# HibiAPI core: shallow embedding and verification

This file embeds the resilience/authentication core of the HibiAPI
repository in Lean 4 and proves the frozen specification claims about it:

* `hibiapi/utils/decorators/__init__.py` — the `Retry` decorator (the
  package module; it shadows the legacy `hibiapi/utils/decorators.py`
  module, which is also embedded below for comparison) and the sync/async
  dispatch of `TimeIt`;
* `hibiapi/app/application.py` — `rate_limit_depend`: rate-limit key
  derivation and counting over the shared cache store;
* `hibiapi/api/bilibili/api/base.py` — `BaseBilibiliEndpoint._sign` and
  `BaseBilibiliEndpoint._parse_json`.

External collaborators (the Python standard library's `ipaddress`,
`hashlib.md5`, `json`, string formatting) are embedded faithfully from
their documented behaviour; parts of the repository that are not part of
the provided sources (the cache store, the URL join/percent-encoding, the
rate-limit exception) are modelled from the specification and are marked
as such in their doc comments.
-/

namespace HibiAPI

/-! ## Python exception classes

A small closed model of the CPython exception class hierarchy, sufficient
for the classes the embedded code can raise or mention.  `isinstance` is
the reflexive-transitive closure of the `parent` relation. -/

/-- The exception classes relevant to the embedded code. -/
inductive PyClass
  | baseException
  | keyboardInterrupt
  | exception
  | valueError
  | jsonDecodeError
  | typeError
  | osError
  | connectionError
  | assertionError
  deriving DecidableEq, Repr

/-- Single-inheritance parent of each class (`BaseException` is the root).
`JSONDecodeError` derives from `ValueError` in CPython's `json` module. -/
def PyClass.parent : PyClass → Option PyClass
  | .baseException => none
  | .keyboardInterrupt => some .baseException
  | .exception => some .baseException
  | .valueError => some .exception
  | .jsonDecodeError => some .valueError
  | .typeError => some .exception
  | .osError => some .exception
  | .connectionError => some .osError
  | .assertionError => some .exception

/-- Ancestor chain of a class, the class itself included. -/
def PyClass.ancestors : PyClass → List PyClass
  | .baseException => [.baseException]
  | .keyboardInterrupt => [.keyboardInterrupt, .baseException]
  | .exception => [.exception, .baseException]
  | .valueError => [.valueError, .exception, .baseException]
  | .jsonDecodeError => [.jsonDecodeError, .valueError, .exception, .baseException]
  | .typeError => [.typeError, .exception, .baseException]
  | .osError => [.osError, .exception, .baseException]
  | .connectionError => [.connectionError, .osError, .exception, .baseException]
  | .assertionError => [.assertionError, .exception, .baseException]

/-- `issubclass(c, d)` over the closed hierarchy. -/
def PyClass.isSubclass (c d : PyClass) : Bool := c.ancestors.contains d

/-- A Python exception value: its class plus an argument payload, so that
exception objects raised by different attempts are distinguishable. -/
structure PyExc where
  cls : PyClass
  arg : Nat := 0
  deriving DecidableEq, Repr

/-- `isinstance(e, tuple(classes))`. -/
def isinstanceAny (e : PyExc) (classes : List PyClass) : Bool :=
  classes.any fun c => e.cls.isSubclass c

/-! ## `TimeIt` and `Retry` (`hibiapi/utils/decorators/__init__.py`)

A wrapped operation is modelled by its calling convention (the value
`inspect.iscoroutinefunction` inspects at wrap time) together with its
behaviour on each successive invocation: `attempts i` is the outcome of
the `i`-th call (0-indexed), either a returned value or a raised
exception. -/

/-- Calling convention of a Python callable: plain function or coroutine
function (`inspect.iscoroutinefunction`). -/
inductive CallMode
  | sync
  | coroutine
  deriving DecidableEq, Repr

/-- A Python operation as the retry machinery sees it: a statically
inspectable calling convention and a per-invocation outcome. -/
structure PyFunc (α : Type) where
  mode : CallMode
  attempts : Nat → Except PyExc α

/-- `TimeIt` (`decorators.py`, lines 28–53): picks `async_wrapper` when
`iscoroutinefunction(function)` and `sync_wrapper` otherwise; each wrapper
re-raises or returns exactly what the wrapped call produced (the timing
trace is emitted in a `finally` block and does not alter the outcome), so
the semantic content is the preserved calling convention and the preserved
per-invocation behaviour. -/
def TimeIt {α : Type} (f : PyFunc α) : PyFunc α :=
  match f.mode with
  | .coroutine => { mode := .coroutine, attempts := f.attempts }
  | .sync => { mode := .sync, attempts := f.attempts }

/-- Result of running a `Retry`-wrapped operation to completion:
the value returned, or the exception ultimately raised.  `attempts`
counts invocations of the wrapped operation and `sleeps` counts calls
to `sleep(delay)`. -/
inductive RetryOutcome (α : Type)
  | returned (a : α)
  | raised (e : PyExc)
  deriving DecidableEq, Repr

/-- Trace of one execution of a `Retry` wrapper. -/
structure RetryRun (α : Type) where
  outcome : RetryOutcome α
  attempts : Nat
  sleeps : Nat
  deriving DecidableEq, Repr

/-- `tuple(exceptions or [Exception])` (line 73 of
`decorators/__init__.py`): `None` — and, by Python truthiness of `or`, an
empty iterable — defaults to the single root class `Exception`. -/
def allowedExceptionsOf (exceptions : Option (List PyClass)) : List PyClass :=
  match exceptions with
  | none => [.exception]
  | some [] => [.exception]
  | some l => l

/-- The `for retried in range(retries)` loop of `sync_wrapper`
(`decorators/__init__.py`, lines 77–92), with `i` the next attempt index,
`fuel` the remaining loop iterations, `err` the `error` local, and `s`
the number of sleeps so far.  An exception that is not an instance of
`Exception` is not caught by the `except Exception` clause and propagates;
a caught exception that is not an instance of `allowed_exceptions` is
re-raised by the bare `raise`; otherwise the error is recorded, the loop
sleeps and retries.  When the loop exhausts, `raise error` raises the
recorded last error (the `assert isinstance(error, Exception)` can only
fail when the loop body never ran, i.e. `retries = 0`, which the
construction-time `assert retries >= 1` excludes). -/
def retryLoop {α : Type} (allowed : List PyClass) (f : Nat → Except PyExc α) :
    Nat → Nat → Option PyExc → Nat → RetryRun α
  | i, 0, err, s =>
    match err with
    | some e => ⟨.raised e, i, s⟩
    | none => ⟨.raised ⟨.assertionError, 0⟩, i, s⟩
  | i, fuel + 1, _, s =>
    match f i with
    | .ok a => ⟨.returned a, i + 1, s⟩
    | .error e =>
      if e.cls.isSubclass .exception then
        if isinstanceAny e allowed then
          retryLoop allowed f (i + 1) fuel (some e) (s + 1)
        else ⟨.raised e, i + 1, s⟩
      else ⟨.raised e, i + 1, s⟩

/-- Semantics of one execution of the wrapper `Retry(function,
retries := retries, exceptions := exceptions)` returns (package version,
`decorators/__init__.py`).  `f i` is the outcome of the `i`-th invocation
of the timed operation. -/
def retryRun {α : Type} (retries : Nat) (exceptions : Option (List PyClass))
    (f : Nat → Except PyExc α) : RetryRun α :=
  retryLoop (allowedExceptionsOf exceptions) f 0 retries none 0

/-- The `Retry` decorator at the `PyFunc` level: it wraps
`timed_func = TimeIt(function)` and selects `async_wrapper` or
`sync_wrapper` by `iscoroutinefunction(function)` (line 112). -/
def Retry {α : Type} (retries : Nat) (exceptions : Option (List PyClass))
    (f : PyFunc α) : PyFunc α :=
  let timed := TimeIt f
  { mode := f.mode
    attempts := fun _ =>
      match (retryRun retries exceptions timed.attempts).outcome with
      | .returned a => Except.ok a
      | .raised e => Except.error e }

/-- The legacy `sync_wrapper` loop of the shadowed module
`hibiapi/utils/decorators.py` (lines 117–130): `remain := retries -
retried` is in `1..retries` inside the loop, so the `remain <= 0` guard
never fires; a retryable final-attempt error is swallowed and the wrapper
falls off the loop returning `None` (modelled as `returned none`). -/
def retryLoopLegacy {α : Type} (allowed : List PyClass) (f : Nat → Except PyExc α) :
    Nat → Nat → Nat → Nat → RetryRun (Option α)
  | i, 0, _, s => ⟨.returned none, i, s⟩
  | i, fuel + 1, retries, s =>
    match f i with
    | .ok a => ⟨.returned (some a), i + 1, s⟩
    | .error e =>
      if e.cls.isSubclass .exception then
        if retries - i ≤ 0 ∨ ¬ isinstanceAny e allowed then ⟨.raised e, i + 1, s⟩
        else retryLoopLegacy allowed f (i + 1) fuel retries (s + 1)
      else ⟨.raised e, i + 1, s⟩

/-- Legacy `Retry` wrapper semantics (`decorators.py`). -/
def retryRunLegacy {α : Type} (retries : Nat) (exceptions : Option (List PyClass))
    (f : Nat → Except PyExc α) : RetryRun (Option α) :=
  retryLoopLegacy (allowedExceptionsOf exceptions) f 0 retries retries 0

/-! ## Retry lemmas -/

/-- If every attempt from `i` for `fuel` steps raises a retryable
(`Exception`-derived and allow-listed) error, the loop performs all
`fuel` remaining attempts, sleeps after each, and raises the error of
the final attempt. -/
theorem retryLoop_all_fail {α : Type} (allowed : List PyClass)
    (f : Nat → Except PyExc α) :
    ∀ (fuel i s : Nat) (err : Option PyExc), 1 ≤ fuel →
      (∀ j, j < fuel → ∃ ej, f (i + j) = .error ej ∧
        ej.cls.isSubclass .exception = true ∧ isinstanceAny ej allowed = true) →
      ∀ e, f (i + (fuel - 1)) = .error e →
      retryLoop allowed f i fuel err s = ⟨.raised e, i + fuel, s + fuel⟩ := by
  intro fuel
  induction fuel with
  | zero => omega
  | succ n ih =>
    intro i s err _ hall e hlast
    obtain ⟨e0, he0, hsub0, hallow0⟩ := hall 0 (Nat.succ_pos n)
    rw [Nat.add_zero] at he0
    cases n with
    | zero =>
      have he : f i = .error e := by simpa using hlast
      rw [he] at he0
      injection he0 with h2
      subst h2
      simp [retryLoop, he, hsub0, hallow0]
    | succ m =>
      have hstep : retryLoop allowed f i (m + 1 + 1) err s =
          retryLoop allowed f (i + 1) (m + 1) (some e0) (s + 1) := by
        simp [retryLoop, he0, hsub0, hallow0]
      rw [hstep, ih (i + 1) (s + 1) (some e0) (Nat.succ_pos m)
        (fun j hj => by
          obtain ⟨ej, hej, h1, h2⟩ := hall (j + 1) (by omega)
          exact ⟨ej, by rw [← hej]; congr 1; omega, h1, h2⟩)
        e (by rw [← hlast]; congr 1; omega)]
      congr 1 <;> omega

/-- C1: with `maxAttempts = retries ≥ 1` and every invocation raising a
retryable (allow-listed, `Exception`-derived) error, the `Retry` wrapper
performs exactly `retries` attempts and ultimately raises the error of
the final attempt; no earlier attempt's error is the outcome. -/
theorem C1_retry_exhausts_and_raises_last_error {α : Type}
    (retries : Nat) (exceptions : Option (List PyClass))
    (f : Nat → Except PyExc α) (e : PyExc)
    (hret : 1 ≤ retries)
    (hall : ∀ j, j < retries → ∃ ej, f j = .error ej ∧
      ej.cls.isSubclass .exception = true ∧
      isinstanceAny ej (allowedExceptionsOf exceptions) = true)
    (hlast : f (retries - 1) = .error e) :
    retryRun retries exceptions f = ⟨.raised e, retries, retries⟩ := by
  have := retryLoop_all_fail (allowedExceptionsOf exceptions) f retries 0 0 none
    hret (fun j hj => by simpa using hall j hj) e (by simpa using hlast)
  simpa [retryRun] using this

/-- C1 witness: two attempts, both raising distinct `ValueError`s; the
wrapper raises the second one after exactly 2 attempts. -/
theorem C1_witness :
    retryRun 2 none (fun i => (Except.error ⟨.valueError, i⟩ : Except PyExc Nat)) =
      ⟨.raised ⟨.valueError, 1⟩, 2, 2⟩ :=
  C1_retry_exhausts_and_raises_last_error 2 none _ _ (by decide)
    (fun j _ => ⟨⟨.valueError, j⟩, rfl, rfl, rfl⟩) rfl

/-- C7: an error that is not an instance of the configured allow-list
propagates immediately: exactly one attempt, zero sleeps, the error
itself as the outcome — for every remaining attempt budget. -/
theorem C7_nonretryable_error_propagates_immediately {α : Type}
    (retries : Nat) (exceptions : Option (List PyClass))
    (f : Nat → Except PyExc α) (e : PyExc)
    (hret : 1 ≤ retries)
    (hfirst : f 0 = .error e)
    (hnotallowed : isinstanceAny e (allowedExceptionsOf exceptions) = false) :
    retryRun retries exceptions f = ⟨.raised e, 1, 0⟩ := by
  cases retries with
  | zero => omega
  | succ n =>
    by_cases hsub : e.cls.isSubclass .exception = true <;>
      simp [retryRun, retryLoop, hfirst, hsub, hnotallowed]

/-- C7 witness: a `ValueError` against an allow-list of
`ConnectionError` only, with 3 attempts budgeted: one attempt, no sleep. -/
theorem C7_witness :
    retryRun 3 (some [.connectionError])
      (fun i => (Except.error ⟨.valueError, i⟩ : Except PyExc Nat)) =
      ⟨.raised ⟨.valueError, 0⟩, 1, 0⟩ :=
  C7_nonretryable_error_propagates_immediately 3 (some [.connectionError]) _ _
    (by decide) rfl (by decide)

/-- C8: the timing and retry wrappers decide the calling convention once,
at wrap time, from the wrapped operation alone (`iscoroutinefunction`),
and return a wrapper of the same convention; the per-invocation behaviour
of the timed wrapper is that of the wrapped operation, and the decision —
being a function of the operation only — is identical at every
invocation. -/
theorem C8_dispatch_decided_at_wrap_time {α : Type} (f : PyFunc α)
    (retries : Nat) (exceptions : Option (List PyClass)) :
    (TimeIt f).mode = f.mode ∧
    (TimeIt f).attempts = f.attempts ∧
    (Retry retries exceptions f).mode = f.mode := by
  refine ⟨?_, ?_, rfl⟩ <;> cases h : f.mode <;> simp [TimeIt, h]

/-- C10: constructing `Retry` without an `exceptions` allow-list defaults
the allow-list to the single root class `Exception`, so every
`Exception`-derived error is treated as retryable: it passes the
`isinstance` filter, and (attempt budget permitting) triggers a further
attempt rather than an immediate re-raise. -/
theorem C10_default_allowlist_is_exception :
    allowedExceptionsOf none = [PyClass.exception] ∧
    (∀ e : PyExc, e.cls.isSubclass .exception = true →
      isinstanceAny e (allowedExceptionsOf none) = true) ∧
    (∀ (α : Type) (f : Nat → Except PyExc α) (e : PyExc),
      e.cls.isSubclass .exception = true → f 0 = .error e →
      (retryRun 2 none f).attempts = 2) := by
  refine ⟨rfl, ?_, ?_⟩
  · intro e he
    simp [isinstanceAny, allowedExceptionsOf, he]
  · intro α f e he hf
    have hi : isinstanceAny e (allowedExceptionsOf none) = true := by
      simp [isinstanceAny, allowedExceptionsOf, he]
    rcases h1 : f 1 with e1 | a1
    · by_cases hsub1 : e1.cls.isSubclass .exception = true <;>
        by_cases hall1 : isinstanceAny e1 (allowedExceptionsOf none) = true <;>
          simp [retryRun, retryLoop, hf, h1, he, hi, hsub1, hall1]
    · simp [retryRun, retryLoop, hf, h1, he, hi]

/-- C10 witness: default configuration, a `ConnectionError` (an
`Exception` subclass) on the first attempt: a second attempt happens. -/
theorem C10_witness :
    (retryRun 2 none
      (fun i => (Except.error ⟨.connectionError, i⟩ : Except PyExc Nat))).attempts = 2 :=
  C10_default_allowlist_is_exception.2.2 Nat _ ⟨.connectionError, 0⟩ (by decide) rfl

/-- The shadowed legacy module `hibiapi/utils/decorators.py` diverges from
the package version on exhaustion: because `remain = retries - retried`
never reaches 0 inside the loop, an operation that always raises a
retryable error makes the legacy wrapper fall off its loop and return
`None` instead of raising the last error.  (Python resolves
`hibiapi.utils.decorators` to the package, so the package semantics proved
in the claims above are the program's; this records the divergence.) -/
theorem retryLegacy_swallows_final_error :
    retryRunLegacy 3 none
      (fun i => (Except.error ⟨.valueError, i⟩ : Except PyExc Nat)) =
      ⟨.returned none, 3, 3⟩ := by decide

/-! ## Hex and byte helpers (shared by `bytes.hex()`, MD5 and IP parsing) -/

/-- Lowercase hexadecimal digit for `n < 16`. -/
def hexDigitChar (n : Nat) : Char := "0123456789abcdef".data.getD n '0'

/-- `"{:02x}"` of one byte, as `bytes.hex()` renders each byte. -/
def byteHex (b : Nat) : List Char := [hexDigitChar (b / 16 % 16), hexDigitChar (b % 16)]

/-- `bytes.hex()`: lowercase hex string of a byte sequence. -/
def bytesHex (bs : List Nat) : String := ⟨bs.flatMap byteHex⟩

/-- Numeric value of a hexadecimal digit character, if it is one. -/
def hexCharVal (c : Char) : Option Nat :=
  if c.isDigit then some (c.toNat - 48)
  else if 'a' ≤ c ∧ c ≤ 'f' then some (c.toNat - 87)
  else if 'A' ≤ c ∧ c ≤ 'F' then some (c.toNat - 55)
  else none

/-- Split a character list on every non-overlapping occurrence of the
(nonempty) separator, scanning left to right — the semantics of Python's
`str.split(sep)`.  `fuel` bounds the recursion and is always supplied as
more than the list length, so it never runs out. -/
def splitCharsFuel (sep : List Char) : Nat → List Char → List Char → List (List Char)
  | 0, cs, acc => [acc.reverse ++ cs]
  | fuel + 1, cs, acc =>
    match cs with
    | [] => [acc.reverse]
    | c :: rest =>
      if sep.isPrefixOf (c :: rest) then
        acc.reverse :: splitCharsFuel sep fuel (List.drop sep.length (c :: rest)) []
      else splitCharsFuel sep fuel rest (c :: acc)

/-- Python `s.split(sep)` for a nonempty separator (the empty-separator
case raises in Python and is never used by the embedded code). -/
def pySplit (s sep : String) : List String :=
  if sep.data = [] then [s]
  else (splitCharsFuel sep.data (s.data.length + 1) s.data []).map (⟨·⟩)

/-! ## Rate-limit key derivation (`hibiapi/app/application.py`, lines 88–93)

`ipaddress.ip_address` is embedded from its CPython behaviour: it accepts
dotted-quad IPv4 (decimal octets `0..255`, leading zeros rejected) and
RFC-4291 IPv6 text forms (1–4 hexdigit groups, at most one `::`, optional
embedded dotted-quad tail); IPv6 zone identifiers (`%zone`) are not
modelled — an unmodelled form parses as `none`, which cannot affect any
theorem below because the derived key is the fallback string on every
path.  `.packed` is the big-endian byte string of the address. -/

/-- A parsed IP address: version (4 or 6) and packed big-endian bytes. -/
structure IPAddr where
  version : Nat
  packed : List Nat
  deriving DecidableEq, Repr

/-- One dotted-quad octet: 1–3 decimal digits, no leading zero, `≤ 255`. -/
def decOctet (s : String) : Option Nat :=
  let cs := s.data
  if cs ≠ [] ∧ cs.all (·.isDigit) ∧ cs.length ≤ 3 ∧
      (cs.length = 1 ∨ cs.head? ≠ some '0') then
    let v := cs.foldl (fun a c => a * 10 + (c.toNat - 48)) 0
    if v ≤ 255 then some v else none
  else none

/-- Dotted-quad IPv4 parsing (`ipaddress.IPv4Address`): four octets. -/
def parseIPv4 (s : String) : Option (List Nat) :=
  match (pySplit s ".").mapM decOctet with
  | some [a, b, c, d] => some [a, b, c, d]
  | _ => none

/-- One IPv6 group: 1–4 hexadecimal digits. -/
def hexGroup (s : String) : Option Nat :=
  let cs := s.data
  if cs ≠ [] ∧ cs.length ≤ 4 ∧ cs.all (fun c => (hexCharVal c).isSome) then
    some (cs.foldl (fun a c => a * 16 + (hexCharVal c).getD 0) 0)
  else none

/-- Colon-separated IPv6 group texts to 16-bit group values; the final
element may be an embedded dotted quad (two groups) when `allowV4`. -/
def ipv6Groups (allowV4 : Bool) : List String → Option (List Nat)
  | [] => some []
  | [last] =>
    if allowV4 ∧ last.data.contains '.' then
      match parseIPv4 last with
      | some [a, b, c, d] => some [a * 256 + b, c * 256 + d]
      | _ => none
    else (hexGroup last).map ([·])
  | p :: rest => do
    let g ← hexGroup p
    let gs ← ipv6Groups allowV4 rest
    pure (g :: gs)

/-- Parse one side of a (possibly `::`-split) IPv6 address into 16-bit
groups. -/
def ipv6Side (s : String) (allowV4 : Bool) : Option (List Nat) :=
  if s = "" then some [] else ipv6Groups allowV4 (pySplit s ":")

/-- RFC-4291 IPv6 text parsing (`ipaddress.IPv6Address`), yielding the 16
packed bytes: at most one `::`, which stands for at least one zero group;
without `::` exactly eight groups are required. -/
def parseIPv6 (s : String) : Option (List Nat) :=
  let groups? : Option (List Nat) :=
    match pySplit s "::" with
    | [whole] => do
      let gs ← ipv6Side whole true
      if gs.length = 8 then some gs else none
    | [l, r] => do
      let lg ← ipv6Side l false
      let rg ← ipv6Side r true
      if lg.length + rg.length ≤ 7 then
        some (lg ++ List.replicate (8 - lg.length - rg.length) 0 ++ rg)
      else none
    | _ => none
  (groups?).map fun gs => gs.flatMap fun g => [g / 256 % 256, g % 256]

/-- `ipaddress.ip_address(host)`: IPv4 first, then IPv6; `none` models the
`ValueError` raised for an unparseable host. -/
def ip_address (host : String) : Option IPAddr :=
  match parseIPv4 host with
  | some bs => some ⟨4, bs⟩
  | none =>
    match parseIPv6 host with
    | some bs => some ⟨6, bs⟩
    | none => none

/-- CPython `str.__format__` with format spec `"x"`: raises
`ValueError: Unknown format code 'x' for object of type 'str'` for every
string — the format code `x` is only valid for integers.  This is what
the f-string fragment `{client_ip_hex:x}` evaluates, `client_ip_hex`
being the `str` result of `bytes.hex()`. -/
def strFormatX : String → Except PyExc String := fun _ => .error ⟨.valueError, 0⟩

/-- The `try` block of `rate_limit_depend` (lines 89–91): parse the host,
hex the packed bytes, and build the f-string — whose `{client_ip_hex:x}`
conversion raises `ValueError` before the string can be produced. -/
def deriveLimitKeyAttempt (host : String) : Except PyExc String :=
  match ip_address host with
  | none => .error ⟨.valueError, 1⟩
  | some ip => do
    let formatted ← strFormatX (bytesHex ip.packed)
    pure ("rate_limit:IPv" ++ toString ip.version ++ "-" ++ formatted)

/-- Lines 88–93 of `application.py`: the `try`/`except ValueError` around
the key derivation.  Every error the block can raise is a `ValueError`,
caught by the `except` clause, which derives the fallback key. -/
def deriveLimitKey (host : String) : String :=
  match deriveLimitKeyAttempt host with
  | .ok k => k
  | .error _ => "rate_limit:fallback-" ++ host

/-- The key C2 describes for a parseable numeric host: the
address-family-tagged hex of the packed bytes (what the f-string would
produce had the `{...:x}` conversion not raised). -/
def claimedLimitKey (host : String) : String :=
  match ip_address host with
  | some ip => "rate_limit:IPv" ++ toString ip.version ++ "-" ++ bytesHex ip.packed
  | none => "rate_limit:fallback-" ++ host

/-- Every host — parseable or not — derives the fallback key: the
`{client_ip_hex:x}` format conversion raises `ValueError` inside the
`try`, so the `except ValueError` fallback path always runs. -/
theorem deriveLimitKey_always_fallback (host : String) :
    deriveLimitKey host = "rate_limit:fallback-" ++ host := by
  unfold deriveLimitKey deriveLimitKeyAttempt
  cases ip_address host <;> rfl

/-- C2 (refuted; code bug): `127.0.0.1` parses as a numeric IPv4 host,
yet the derived counter key is the fallback key, not the claimed
`rate_limit:IPv4-7f000001` — the `{client_ip_hex:x}` format conversion
applies integer format code `x` to a `str` and raises `ValueError`
inside the `try`, so the fallback path runs for every host. -/
theorem C2_numeric_host_still_gets_fallback_key :
    ip_address "127.0.0.1" = some ⟨4, [127, 0, 0, 1]⟩ ∧
    deriveLimitKey "127.0.0.1" = "rate_limit:fallback-127.0.0.1" ∧
    claimedLimitKey "127.0.0.1" = "rate_limit:IPv4-7f000001" ∧
    deriveLimitKey "127.0.0.1" ≠ claimedLimitKey "127.0.0.1" := by decide

/-! ## Rate limiting (`hibiapi/app/application.py`, lines 84–102)

The shared cache store (`hibiapi.utils.cache`, not part of the provided
sources) is modelled from the spec.  Modelled from the spec: the store
holds per-key counters with an optional absolute expiry; a record whose
TTL has lapsed is discarded, so the next increment recreates it at 1;
`incr` is the spec's atomic increment primitive (§4.5 step 1: "atomically
increment the counter for `key` …, if absent, create at 1");  `expire`
sets the key's TTL; `get_expire` reports the remaining TTL in seconds. -/

/-- A cache record: counter value and optional absolute expiry instant. -/
structure CacheEntry where
  count : Nat
  expireAt : Option Nat
  deriving DecidableEq, Repr

/-- The shared key-value store. -/
def CacheStore := List (String × CacheEntry)

/-- The live (non-expired) record for a key at instant `now`, if any. -/
def CacheStore.live (s : CacheStore) (key : String) (now : Nat) : Option CacheEntry :=
  match List.lookup key s with
  | some e =>
    match e.expireAt with
    | some t => if t ≤ now then none else some e
    | none => some e
  | none => none

/-- Store the record for a key, replacing any previous one. -/
def CacheStore.set (s : CacheStore) (key : String) (e : CacheEntry) : CacheStore :=
  (key, e) :: List.filter (fun kv => kv.1 ≠ key) s

/-- Modelled from the spec: the store's atomic increment — create at 1
when the key is absent or its record has lapsed, else add one; a fresh
record starts with no TTL (the caller sets it), a live record keeps its
expiry.  Returns the post-increment count (`await cache.incr(limit_key)`). -/
def cacheIncr (s : CacheStore) (key : String) (now : Nat) : Nat × CacheStore :=
  match CacheStore.live s key now with
  | some e => (e.count + 1, CacheStore.set s key ⟨e.count + 1, e.expireAt⟩)
  | none => (1, CacheStore.set s key ⟨1, none⟩)

/-- Modelled from the spec: `await cache.expire(limit_key, timeout)` —
set the key's expiry to `timeout` from now. -/
def cacheExpire (s : CacheStore) (key : String) (timeout now : Nat) : CacheStore :=
  match CacheStore.live s key now with
  | some e => CacheStore.set s key ⟨e.count, some (now + timeout)⟩
  | none => s

/-- Modelled from the spec: `await cache.get_expire(limit_key)` — the
remaining time-to-live of the key, in seconds. -/
def cacheGetExpire (s : CacheStore) (key : String) (now : Nat) : Nat :=
  match CacheStore.live s key now with
  | some e =>
    match e.expireAt with
    | some t => t - now
    | none => 0
  | none => 0

/-- Outcome of one inbound rate-limit check.  Modelled from the spec: the
denial is `RateLimitReachedException` (class not in the provided sources),
surfaced as a 429-equivalent response with a `Retry-After` header carrying
the remaining window seconds. -/
inductive RateLimitResult
  | allowed
  | denied (status : Nat) (retryAfter : Nat)
  deriving DecidableEq, Repr

/-- Lines 95–102 of `application.py`: increment the key's counter; on the
first request of a window (`request_count <= 1`) set the expiry to the
interval; when the count exceeds the maximum, deny with the key's
remaining TTL as the `Retry-After` value; otherwise allow. -/
def rate_limit_check (maxRequests interval : Nat) (key : String) (now : Nat)
    (s : CacheStore) : RateLimitResult × CacheStore :=
  let r := cacheIncr s key now
  if r.1 ≤ 1 then (.allowed, cacheExpire r.2 key interval now)
  else if maxRequests < r.1 then
    (.denied 429 (cacheGetExpire r.2 key now), r.2)
  else (.allowed, r.2)

/-- Successive `rate_limit_check` calls for one key at the given instants,
each seeing the store the previous call left. -/
def rateLimitRuns (maxRequests interval : Nat) (key : String) (s : CacheStore) :
    List Nat → List RateLimitResult
  | [] => []
  | t :: ts =>
    let r := rate_limit_check maxRequests interval key t s
    r.1 :: rateLimitRuns maxRequests interval key r.2 ts

/-- Looking a key up right after `CacheStore.set` returns the new record. -/
theorem lookup_set_self (s : CacheStore) (key : String) (e : CacheEntry) :
    List.lookup key (CacheStore.set s key e) = some e := by
  simp [CacheStore.set, List.lookup]

/-- A still-unexpired single-record store is live. -/
theorem live_single (key : String) (c t now : Nat) (h : now < t) :
    CacheStore.live [(key, ⟨c, some t⟩)] key now = some ⟨c, some t⟩ := by
  simp only [CacheStore.live, List.lookup, beq_self_eq_true, if_pos]
  rw [if_neg (by omega)]

/-- C5: each check increments the key's counter; with `1 ≤ maxRequests`
the request is allowed exactly while the post-increment count does not
exceed `maxRequests`, and a count beyond it is denied as a 429 carrying
the key's remaining TTL as `Retry-After`; concretely, with
`maxRequests = 3` and `interval = 60`, four sequential checks inside one
window give allowed, allowed, allowed, then denied with
`retryAfter = t1 + 60 - t4 ≤ 60`. -/
theorem C5_rate_limit_counts_and_denies (maxRequests interval : Nat)
    (key : String) (now : Nat) (s : CacheStore) (hmax : 1 ≤ maxRequests) :
    (((rate_limit_check maxRequests interval key now s).1 = .allowed ↔
        (cacheIncr s key now).1 ≤ maxRequests) ∧
      (maxRequests < (cacheIncr s key now).1 →
        (rate_limit_check maxRequests interval key now s).1 =
          .denied 429 (cacheGetExpire (cacheIncr s key now).2 key now))) ∧
    (∀ t1 t2 t3 t4 : Nat, t1 ≤ t2 → t2 ≤ t3 → t3 ≤ t4 → t4 < t1 + 60 →
      rateLimitRuns 3 60 key [] [t1, t2, t3, t4] =
        [.allowed, .allowed, .allowed, .denied 429 (t1 + 60 - t4)] ∧
      t1 + 60 - t4 ≤ 60) := by
  constructor
  · simp only [rate_limit_check]
    split_ifs with h1 h2
    · exact ⟨by simp; omega, fun hc => absurd hc (by omega)⟩
    · exact ⟨by simp; omega, fun _ => rfl⟩
    · exact ⟨by simp; omega, fun hc => absurd hc (by omega)⟩
  · intro t1 t2 t3 t4 h12 h23 h34 h4w
    have e1 : rate_limit_check 3 60 key t1 [] =
        (.allowed, [(key, ⟨1, some (t1 + 60)⟩)]) := by
      simp [rate_limit_check, cacheIncr, cacheExpire, CacheStore.live,
        CacheStore.set, List.lookup]
    have e2 : rate_limit_check 3 60 key t2 [(key, ⟨1, some (t1 + 60)⟩)] =
        (.allowed, [(key, ⟨2, some (t1 + 60)⟩)]) := by
      have hl := live_single key 1 (t1 + 60) t2 (by omega)
      simp [rate_limit_check, cacheIncr, hl, CacheStore.set]
    have e3 : rate_limit_check 3 60 key t3 [(key, ⟨2, some (t1 + 60)⟩)] =
        (.allowed, [(key, ⟨3, some (t1 + 60)⟩)]) := by
      have hl := live_single key 2 (t1 + 60) t3 (by omega)
      simp [rate_limit_check, cacheIncr, hl, CacheStore.set]
    have e4 : rate_limit_check 3 60 key t4 [(key, ⟨3, some (t1 + 60)⟩)] =
        (.denied 429 (t1 + 60 - t4), [(key, ⟨4, some (t1 + 60)⟩)]) := by
      have hl := live_single key 3 (t1 + 60) t4 (by omega)
      have hl4 := live_single key 4 (t1 + 60) t4 (by omega)
      simp [rate_limit_check, cacheIncr, hl, CacheStore.set, cacheGetExpire]
      rw [hl4]
    refine ⟨?_, by omega⟩
    simp [rateLimitRuns, e1, e2, e3, e4]

/-- C5 witness: four checks at one instant with an empty store. -/
theorem C5_witness :
    rateLimitRuns 3 60 "k" [] [0, 0, 0, 0] =
      [.allowed, .allowed, .allowed, .denied 429 60] := by
  have h := (C5_rate_limit_counts_and_denies 3 60 "k" 0 [] (by decide)).2
    0 0 0 0 (Nat.le_refl 0) (Nat.le_refl 0) (Nat.le_refl 0) (by omega)
  simpa using h.1

/-! ## Atomicity of the counter under contention (C9)

Modelled from the spec: §4.5 mandates that the store's increment
primitive is atomic across concurrent callers, so any interleaving of `n`
simultaneous `rate_limit_check` calls on one key performs their `incr`
steps as `n` indivisible increments in some serial order.  `incrObserved`
runs those `n` atomic increments and records the post-increment count
each caller observes. -/

/-- `n` atomic increments of one key; returns the final store and the
counts observed by the callers, in execution order. -/
def incrObserved (key : String) (now : Nat) : Nat → CacheStore → CacheStore × List Nat
  | 0, s => (s, [])
  | n + 1, s =>
    let r := cacheIncr s key now
    let rest := incrObserved key now n r.2
    (rest.1, r.1 :: rest.2)

/-- The live counter value of a key (0 when absent or lapsed). -/
def liveCount (s : CacheStore) (key : String) (now : Nat) : Nat :=
  match CacheStore.live s key now with
  | some e => e.count
  | none => 0

/-- One atomic increment returns the old live count plus one and leaves
the key's live count at exactly that value. -/
theorem cacheIncr_liveCount (s : CacheStore) (key : String) (now : Nat) :
    (cacheIncr s key now).1 = liveCount s key now + 1 ∧
    liveCount (cacheIncr s key now).2 key now = liveCount s key now + 1 := by
  unfold cacheIncr liveCount
  cases h : CacheStore.live s key now with
  | none =>
    simp [h, CacheStore.live, lookup_set_self]
  | some e =>
    have hexp : ∀ t, e.expireAt = some t → ¬ t ≤ now := by
      intro t ht
      unfold CacheStore.live at h
      cases hl : List.lookup key s with
      | none => simp [hl] at h
      | some e' =>
        simp only [hl] at h
        cases he' : e'.expireAt with
        | none =>
          simp only [he'] at h
          obtain rfl := Option.some_inj.mp h
          exact absurd (he'.symm.trans ht) (by simp)
        | some t' =>
          simp only [he'] at h
          by_cases hle : t' ≤ now
          · simp [hle] at h
          · simp only [if_neg hle] at h
            obtain rfl := Option.some_inj.mp h
            have : some t' = some t := he'.symm.trans ht
            injection this with h2
            exact h2 ▸ hle
    simp only [h, CacheStore.live, lookup_set_self]
    cases he : e.expireAt with
    | none => simp
    | some t => simp [if_neg (hexp t he)]

/-- Running `n` atomic increments from any store: the observations are
the successive counts `base + 1, …, base + n` and the final live count is
`base + n`, where `base` is the starting live count. -/
theorem incrObserved_spec (key : String) (now : Nat) :
    ∀ (n : Nat) (s : CacheStore),
      (incrObserved key now n s).2 =
        (List.range n).map (fun j => liveCount s key now + 1 + j) ∧
      liveCount (incrObserved key now n s).1 key now =
        liveCount s key now + n := by
  intro n
  induction n with
  | zero => intro s; simp [incrObserved]
  | succ n ih =>
    intro s
    obtain ⟨hc, hs⟩ := cacheIncr_liveCount s key now
    obtain ⟨hobs, hfin⟩ := ih (cacheIncr s key now).2
    constructor
    · show (incrObserved key now (n + 1) s).2 = _
      have hmap : ∀ b : Nat, (List.range (n + 1)).map (fun j => b + 1 + j) =
          (b + 1) :: (List.range n).map (fun j => b + 1 + 1 + j) := by
        intro b
        rw [List.range_succ_eq_map, List.map_cons, List.map_map]
        refine congrArg₂ _ (by omega) ?_
        refine List.map_congr_left fun j _ => ?_
        simp only [Function.comp_apply]
        omega
      simp only [incrObserved, hc, hobs, hs, hmap]
    · show liveCount (incrObserved key now (n + 1) s).1 key now = _
      simp only [incrObserved, hfin, hs]
      omega

/-- C9: with the spec-mandated atomic increment, any interleaving of `n`
concurrent first-window `rate_limit_check` calls on a cold key leaves the
counter at exactly `n`, the observed post-increment counts are exactly
`1, …, n`, and exactly one caller observes the count `1` (hence only one
sets a fresh expiry, since only the observer of a count `≤ 1` runs the
`expire` branch). -/
theorem C9_atomic_increments_on_cold_key (key : String) (now : Nat)
    (n : Nat) (s : CacheStore) (hn : 1 ≤ n)
    (hcold : CacheStore.live s key now = none) :
    liveCount (incrObserved key now n s).1 key now = n ∧
    (incrObserved key now n s).2 = (List.range n).map (· + 1) ∧
    ((incrObserved key now n s).2).count 1 = 1 := by
  have hbase : liveCount s key now = 0 := by simp [liveCount, hcold]
  obtain ⟨hobs, hfin⟩ := incrObserved_spec key now n s
  rw [hbase] at hobs hfin
  have hobs' : (incrObserved key now n s).2 = (List.range n).map (· + 1) := by
    rw [hobs]
    exact List.map_congr_left fun j _ => by omega
  refine ⟨by omega, hobs', ?_⟩
  rw [hobs']
  have hinj : Function.Injective (fun j : Nat => j + 1) := fun a b h => by
    simpa using h
  rw [show (1 : Nat) = 0 + 1 from rfl, List.count_map_of_injective _ _ hinj 0]
  have h0 : (0 : Nat) ∈ List.range n := List.mem_range.mpr (by omega)
  exact List.count_eq_one_of_mem (List.nodup_range n) h0

/-- C9 witness: three concurrent callers on a cold key. -/
theorem C9_witness :
    liveCount (incrObserved "k" 0 3 []).1 "k" 0 = 3 ∧
    (incrObserved "k" 0 3 []).2 = [1, 2, 3] ∧
    ((incrObserved "k" 0 3 []).2).count 1 = 1 := by
  have h := C9_atomic_increments_on_cold_key "k" 0 3 [] (by decide) (by rfl)
  simpa using h

/-! ## Request signing (`hibiapi/api/bilibili/api/base.py`, lines 50–62)

`BaseBilibiliEndpoint._sign` merges the caller's parameters with
`BilibiliConstants.DEFAULT_PARAMS`, `ACCESS_KEY`, `APP_KEY` and
`ts = int(time())`, rebuilds the dict with its keys sorted, serialises it
as the URL query string, and appends `sign = md5(query + SECRET)`.  The
constants module and the URL join helper (`BaseEndpoint._join`,
`hibiapi/utils/routing.py`) are not part of the provided sources: the
constants are kept as parameters, and the query-string serialisation is
modelled from the spec ("Serialize the sorted mapping into a URL query
string using standard percent-encoding", §4.4 step 3). -/

/-- Python `d.update(u)` on an insertion-ordered dict as an association
list: existing keys keep their position with the updated value, new keys
of `u` are appended in `u`'s order. -/
def dictUpdate (d u : List (String × String)) : List (String × String) :=
  d.map (fun kv => (kv.1, (List.lookup kv.1 u).getD kv.2)) ++
    u.filter (fun kv => (List.lookup kv.1 d).isNone)

/-- `{k: params[k] for k in sorted(params.keys())}` (line 59): rebuild the
dict with keys in ascending lexicographic order. -/
def sortedDict (d : List (String × String)) : List (String × String) :=
  (List.insertionSort (· ≤ ·) (d.map Prod.fst)).map
    (fun k => (k, (List.lookup k d).getD ""))

/-- UTF-8 encoding of a Unicode scalar value. -/
def utf8Bytes (n : Nat) : List Nat :=
  if n < 128 then [n]
  else if n < 2048 then [192 + n / 64, 128 + n % 64]
  else if n < 65536 then [224 + n / 4096, 128 + n / 64 % 64, 128 + n % 64]
  else [240 + n / 262144, 128 + n / 4096 % 64, 128 + n / 64 % 64, 128 + n % 64]

/-- UTF-8 bytes of a string (`str.encode()`). -/
def strBytes (s : String) : List Nat := s.data.flatMap fun c => utf8Bytes c.toNat

/-- Uppercase hexadecimal digit, as percent-escapes render bytes. -/
def hexDigitCharUpper (n : Nat) : Char := "0123456789ABCDEF".data.getD n '0'

/-- RFC 3986 unreserved characters, which encode as themselves. -/
def isUnreservedChar (c : Char) : Bool :=
  c.isAlphanum || c = '-' || c = '_' || c = '.' || c = '~'

/-- Modelled from the spec: standard percent-encoding of one character —
unreserved characters stand for themselves, every other character becomes
`%XX` escapes of its UTF-8 bytes. -/
def percentEncodeChar (c : Char) : List Char :=
  if isUnreservedChar c then [c]
  else (utf8Bytes c.toNat).flatMap fun b =>
    ['%', hexDigitCharUpper (b / 16 % 16), hexDigitCharUpper (b % 16)]

/-- Modelled from the spec: percent-encoding of a whole string. -/
def percentEncode (s : String) : String := ⟨s.data.flatMap percentEncodeChar⟩

/-- Modelled from the spec: serialise an ordered parameter mapping as the
URL query string `k1=v1&k2=v2&…` with percent-encoded keys and values. -/
def encodeQuery (params : List (String × String)) : String :=
  String.intercalate "&"
    (params.map fun kv => percentEncode kv.1 ++ "=" ++ percentEncode kv.2)

/-! ### MD5 (`hashlib.md5`), RFC 1321, over byte lists -/

/-- 32-bit left rotation. -/
def rotl32 (x s : Nat) : Nat := ((x <<< s) % 4294967296) ||| (x >>> (32 - s))

/-- 32-bit complement. -/
def bnot32 (x : Nat) : Nat := x ^^^ 4294967295

/-- The 64 MD5 sine-derived constants. -/
def md5K : List Nat :=
  [0xd76aa478, 0xe8c7b756, 0x242070db, 0xc1bdceee,
   0xf57c0faf, 0x4787c62a, 0xa8304613, 0xfd469501,
   0x698098d8, 0x8b44f7af, 0xffff5bb1, 0x895cd7be,
   0x6b901122, 0xfd987193, 0xa679438e, 0x49b40821,
   0xf61e2562, 0xc040b340, 0x265e5a51, 0xe9b6c7aa,
   0xd62f105d, 0x02441453, 0xd8a1e681, 0xe7d3fbc8,
   0x21e1cde6, 0xc33707d6, 0xf4d50d87, 0x455a14ed,
   0xa9e3e905, 0xfcefa3f8, 0x676f02d9, 0x8d2a4c8a,
   0xfffa3942, 0x8771f681, 0x6d9d6122, 0xfde5380c,
   0xa4beea44, 0x4bdecfa9, 0xf6bb4b60, 0xbebfbc70,
   0x289b7ec6, 0xeaa127fa, 0xd4ef3085, 0x04881d05,
   0xd9d4d039, 0xe6db99e5, 0x1fa27cf8, 0xc4ac5665,
   0xf4292244, 0x432aff97, 0xab9423a7, 0xfc93a039,
   0x655b59c3, 0x8f0ccc92, 0xffeff47d, 0x85845dd1,
   0x6fa87e4f, 0xfe2ce6e0, 0xa3014314, 0x4e0811a1,
   0xf7537e82, 0xbd3af235, 0x2ad7d2bb, 0xeb86d391]

/-- The per-round left-rotation amounts. -/
def md5S : List Nat :=
  [7, 12, 17, 22, 7, 12, 17, 22, 7, 12, 17, 22, 7, 12, 17, 22,
   5, 9, 14, 20, 5, 9, 14, 20, 5, 9, 14, 20, 5, 9, 14, 20,
   4, 11, 16, 23, 4, 11, 16, 23, 4, 11, 16, 23, 4, 11, 16, 23,
   6, 10, 15, 21, 6, 10, 15, 21, 6, 10, 15, 21, 6, 10, 15, 21]

/-- One of the 64 MD5 operations on the state `(a, b, c, d)` with message
words `m`. -/
def md5Step (m : List Nat) (st : Nat × Nat × Nat × Nat) (i : Nat) :
    Nat × Nat × Nat × Nat :=
  let a := st.1; let b := st.2.1; let c := st.2.2.1; let d := st.2.2.2
  let f :=
    if i < 16 then (b &&& c) ||| (bnot32 b &&& d)
    else if i < 32 then (d &&& b) ||| (bnot32 d &&& c)
    else if i < 48 then b ^^^ c ^^^ d
    else c ^^^ (b ||| bnot32 d)
  let g :=
    if i < 16 then i
    else if i < 32 then (5 * i + 1) % 16
    else if i < 48 then (3 * i + 5) % 16
    else (7 * i) % 16
  let tmp := (a + f + md5K.getD i 0 + m.getD g 0) % 4294967296
  (d, (b + rotl32 tmp (md5S.getD i 0)) % 4294967296, b, c)

/-- MD5 padding: `0x80`, zeros to 56 mod 64, and the 64-bit little-endian
bit length. -/
def md5Pad (msg : List Nat) : List Nat :=
  msg ++ [128] ++ List.replicate ((119 - msg.length % 64) % 64) 0 ++
    (List.range 8).map fun i => ((msg.length * 8) >>> (8 * i)) % 256

/-- Little-endian 32-bit words from bytes. -/
def bytesToWords : List Nat → List Nat
  | b0 :: b1 :: b2 :: b3 :: rest =>
    (b0 + 256 * b1 + 65536 * b2 + 16777216 * b3) :: bytesToWords rest
  | _ => []

/-- Split a word list into 16-word (512-bit) blocks. -/
def wordsToBlocks : List Nat → List (List Nat)
  | w0 :: w1 :: w2 :: w3 :: w4 :: w5 :: w6 :: w7 ::
    w8 :: w9 :: w10 :: w11 :: w12 :: w13 :: w14 :: w15 :: rest =>
    [w0, w1, w2, w3, w4, w5, w6, w7, w8, w9, w10, w11, w12, w13, w14, w15] ::
      wordsToBlocks rest
  | _ => []

/-- One MD5 block compression. -/
def md5ProcessBlock (st : Nat × Nat × Nat × Nat) (m : List Nat) :
    Nat × Nat × Nat × Nat :=
  let r := (List.range 64).foldl (md5Step m) st
  ((st.1 + r.1) % 4294967296, (st.2.1 + r.2.1) % 4294967296,
   (st.2.2.1 + r.2.2.1) % 4294967296, (st.2.2.2 + r.2.2.2) % 4294967296)

/-- Little-endian bytes of one 32-bit word. -/
def wordLEBytes (w : Nat) : List Nat :=
  [w % 256, (w >>> 8) % 256, (w >>> 16) % 256, (w >>> 24) % 256]

/-- The 16-byte MD5 digest of a byte sequence. -/
def md5Digest (msg : List Nat) : List Nat :=
  let st := (wordsToBlocks (bytesToWords (md5Pad msg))).foldl md5ProcessBlock
    (1732584193, 4023233417, 2562383102, 271733878)
  wordLEBytes st.1 ++ wordLEBytes st.2.1 ++ wordLEBytes st.2.2.1 ++ wordLEBytes st.2.2.2

/-- `hashlib.md5(msg).hexdigest()`: lowercase hex of the digest. -/
def md5Hex (msg : List Nat) : String := bytesHex (md5Digest msg)

/-- The parameter merge of `_sign` (lines 51–58): `params.update({
**DEFAULT_PARAMS, "access_key": …, "appkey": …, "ts": int(time())})`,
with the constants kept as parameters and the timestamp injected. -/
def mergedParams (accessKey appKey : String) (defaults : List (String × String))
    (ts : Nat) (P : List (String × String)) : List (String × String) :=
  dictUpdate P (dictUpdate defaults
    [("access_key", accessKey), ("appkey", appKey), ("ts", toString ts)])

/-- The canonical (key-sorted) parameter mapping of `_sign` (line 59). -/
def canonicalParams (accessKey appKey : String) (defaults : List (String × String))
    (ts : Nat) (P : List (String × String)) : List (String × String) :=
  sortedDict (mergedParams accessKey appKey defaults ts P)

/-- The signature of `_sign` (line 61): lowercase hex MD5 of the raw byte
concatenation of the encoded query string and the shared secret. -/
def signatureOf (secret accessKey appKey : String) (defaults : List (String × String))
    (ts : Nat) (P : List (String × String)) : String :=
  md5Hex (strBytes (encodeQuery (canonicalParams accessKey appKey defaults ts P)) ++
    strBytes secret)

/-- The final parameter set of `_sign` (lines 61–62): the canonical
mapping with `sign = signature` appended. -/
def signParams (secret accessKey appKey : String) (defaults : List (String × String))
    (ts : Nat) (P : List (String × String)) : List (String × String) :=
  canonicalParams accessKey appKey defaults ts P ++
    [("sign", signatureOf secret accessKey appKey defaults ts P)]

/-- A signed request URL: host, endpoint and final query parameters. -/
structure SignedURL where
  base : String
  endpoint : String
  params : List (String × String)
  deriving DecidableEq, Repr

/-- `BaseBilibiliEndpoint._sign` (lines 50–62) at the URL level. -/
def sign (base endpoint secret accessKey appKey : String)
    (defaults : List (String × String)) (ts : Nat)
    (P : List (String × String)) : SignedURL :=
  ⟨base, endpoint, signParams secret accessKey appKey defaults ts P⟩

/-! ### Association-list lemmas -/

/-- Looking up in a per-entry value rewrite of an association list. -/
theorem lookup_map_override (d : List (String × String))
    (g : String × String → String) (k : String) :
    List.lookup k (d.map fun kv => (kv.1, g kv)) =
      (List.lookup k d).map fun v => g (k, v) := by
  induction d with
  | nil => rfl
  | cons kv d ih =>
    obtain ⟨k1, v1⟩ := kv
    by_cases h : k = k1
    · subst h
      simp [List.lookup_cons]
    · have hb : (k == k1) = false := beq_false_of_ne h
      simp [List.lookup_cons, hb, ih]

/-- Filtering by a predicate that passes every entry with key `k` does
not change the lookup of `k`. -/
theorem lookup_filter_of_pass (u : List (String × String))
    (p : String × String → Bool) (k : String)
    (hp : ∀ v, p (k, v) = true) :
    List.lookup k (u.filter p) = List.lookup k u := by
  induction u with
  | nil => rfl
  | cons kv u ih =>
    obtain ⟨k1, v1⟩ := kv
    by_cases h : k = k1
    · subst h
      rw [List.filter_cons_of_pos (hp v1)]
      simp [List.lookup_cons]
    · have hb : (k == k1) = false := beq_false_of_ne h
      by_cases hkv : p (k1, v1) = true
      · rw [List.filter_cons_of_pos hkv]
        simp [List.lookup_cons, hb, ih]
      · rw [List.filter_cons_of_neg (by simpa using hkv)]
        simp [List.lookup_cons, hb, ih]

/-- `dict.update` lookup semantics: the update mapping wins, the original
value survives only for keys the update does not mention. -/
theorem lookup_dictUpdate (d u : List (String × String)) (k : String) :
    List.lookup k (dictUpdate d u) =
      (List.lookup k u).or (List.lookup k d) := by
  unfold dictUpdate
  rw [List.lookup_append, lookup_map_override]
  cases hd : List.lookup k d with
  | some v =>
    cases hu : List.lookup k u with
    | some w => simp [hu]
    | none => simp [hu]
  | none =>
    rw [lookup_filter_of_pass u _ k (fun v => by simp [hd])]
    cases hu : List.lookup k u with
    | some w => simp
    | none => simp

/-- Lookup in a keyed rebuild `k ↦ (k, f k)`. -/
theorem lookup_map_keyFn (l : List String) (f : String → String) (k : String) :
    List.lookup k (l.map fun k2 => (k2, f k2)) =
      if k ∈ l then some (f k) else none := by
  induction l with
  | nil => rfl
  | cons k1 l ih =>
    by_cases h : k = k1
    · subst h
      simp [List.lookup_cons]
    · have hb : (k == k1) = false := beq_false_of_ne h
      simp [List.lookup_cons, hb, ih, h]

/-- The sorted rebuild preserves every lookup. -/
theorem lookup_sortedDict (d : List (String × String)) (k : String) :
    List.lookup k (sortedDict d) = List.lookup k d := by
  unfold sortedDict
  rw [lookup_map_keyFn]
  by_cases h : k ∈ (List.insertionSort (· ≤ ·) (d.map Prod.fst))
  · rw [if_pos h]
    have hmem : k ∈ d.map Prod.fst := ((List.perm_insertionSort _ _).mem_iff).mp h
    have : (List.lookup k d).isSome := by
      rw [List.lookup_isSome_iff]
      obtain ⟨p, hp, hk⟩ := List.mem_map.mp hmem
      exact ⟨p, hp, by simp [hk]⟩
    obtain ⟨v, hv⟩ := Option.isSome_iff_exists.mp this
    simp [hv]
  · rw [if_neg h]
    have hmem : k ∉ d.map Prod.fst :=
      fun hc => h (((List.perm_insertionSort _ _).mem_iff).mpr hc)
    rw [eq_comm, List.lookup_eq_none_iff]
    intro p hp
    by_cases hk : k = p.1
    · exact absurd (List.mem_map.mpr ⟨p, hp, hk.symm⟩) hmem
    · simpa using hk
/-- Keys of the sorted rebuild: the sorted key list itself. -/
theorem keys_sortedDict (d : List (String × String)) :
    (sortedDict d).map Prod.fst = List.insertionSort (· ≤ ·) (d.map Prod.fst) := by
  unfold sortedDict
  rw [List.map_map]
  exact List.map_id'' (fun k => rfl) _

/-- Keys present in an association list are exactly those with a
successful lookup. -/
theorem mem_keys_iff_lookup_isSome (l : List (String × String)) (k : String) :
    k ∈ l.map Prod.fst ↔ (List.lookup k l).isSome := by
  rw [List.lookup_isSome_iff]
  constructor
  · intro h
    obtain ⟨p, hp, hk⟩ := List.mem_map.mp h
    exact ⟨p, hp, by simp [hk]⟩
  · rintro ⟨p, hp, hk⟩
    exact List.mem_map.mpr ⟨p, hp, (eq_of_beq hk).symm⟩

/-- Keys of a `dict.update`: the original keys followed by the update's
genuinely new keys. -/
theorem keys_dictUpdate_eq (d u : List (String × String)) :
    (dictUpdate d u).map Prod.fst =
      d.map Prod.fst ++ (u.filter fun kv => (List.lookup kv.1 d).isNone).map Prod.fst := by
  unfold dictUpdate
  rw [List.map_append, List.map_map]
  rfl

/-- `dict.update` preserves key distinctness. -/
theorem nodup_keys_dictUpdate (d u : List (String × String))
    (hd : (d.map Prod.fst).Nodup) (hu : (u.map Prod.fst).Nodup) :
    ((dictUpdate d u).map Prod.fst).Nodup := by
  rw [keys_dictUpdate_eq]
  refine List.Nodup.append hd ?_ ?_
  · exact ((List.filter_sublist u).map Prod.fst).nodup hu
  · intro k hk1 hk2
    obtain ⟨p, hp, hpk⟩ := List.mem_map.mp hk2
    have hmem := List.mem_filter.mp hp
    have : (List.lookup p.1 d).isNone = true := by simpa using hmem.2
    rw [hpk] at this
    have h2 := (mem_keys_iff_lookup_isSome d k).mp hk1
    simp [Option.isNone_iff_eq_none.mp this] at h2

/-! ### Digest shape lemmas -/

/-- The MD5 digest is always 16 bytes. -/
theorem md5Digest_length (msg : List Nat) : (md5Digest msg).length = 16 := by
  unfold md5Digest
  simp [wordLEBytes]

/-- Every MD5 digest byte is below 256. -/
theorem md5Digest_bytes_lt (msg : List Nat) :
    ∀ b ∈ md5Digest msg, b < 256 := by
  unfold md5Digest
  intro b hb
  simp only [wordLEBytes, List.append_assoc, List.mem_append, List.mem_cons,
    List.not_mem_nil, or_false] at hb
  omega

/-- A lowercase hex digit for `n < 16` is one of `0123456789abcdef`. -/
theorem hexDigitChar_mem (n : Nat) (h : n < 16) :
    hexDigitChar n ∈ "0123456789abcdef".data := by
  revert h
  revert n
  decide

/-- `bytes.hex()` of an `n`-byte sequence has `2 n` characters, all of
them lowercase hex digits. -/
theorem bytesHex_shape (bs : List Nat) :
    (bytesHex bs).length = 2 * bs.length ∧
    ∀ c ∈ (bytesHex bs).data, c ∈ "0123456789abcdef".data := by
  constructor
  · show (bs.flatMap byteHex).length = 2 * bs.length
    induction bs with
    | nil => rfl
    | cons b bs ih => simp only [List.flatMap_cons, List.length_append, ih,
        byteHex, List.length_cons, List.length_nil, List.length_cons]; omega
  · intro c hc
    have : c ∈ bs.flatMap byteHex := hc
    obtain ⟨b, _, hcb⟩ := List.mem_flatMap.mp this
    rcases List.mem_cons.mp hcb with h | h
    · exact h ▸ hexDigitChar_mem _ (Nat.mod_lt _ (by norm_num))
    · rcases List.mem_cons.mp h with h2 | h2
      · exact h2 ▸ hexDigitChar_mem _ (Nat.mod_lt _ (by norm_num))
      · simp at h2

/-- The hex digest is 32 lowercase hex characters. -/
theorem md5Hex_shape (msg : List Nat) :
    (md5Hex msg).length = 32 ∧
    ∀ c ∈ (md5Hex msg).data, c ∈ "0123456789abcdef".data := by
  obtain ⟨h1, h2⟩ := bytesHex_shape (md5Digest msg)
  exact ⟨by rw [md5Hex, h1, md5Digest_length], h2⟩

/-- C3: `_sign` canonicalizes and signs as claimed — the final parameter
set is the merged mapping (caller parameters overridden by the defaults,
`access_key`, `appkey` and the injected `ts`) rebuilt in strictly
ascending lexicographic key order, followed by `sign = md5Hex(query ++
secret)`; the signature is 32 lowercase hex characters computed over the
percent-encoded query string of exactly that sorted mapping. -/
theorem C3_sign_canonicalization (base endpoint secret accessKey appKey : String)
    (defaults : List (String × String)) (ts : Nat) (P : List (String × String))
    (hP : (P.map Prod.fst).Nodup) (hdef : (defaults.map Prod.fst).Nodup) :
    (sign base endpoint secret accessKey appKey defaults ts P).params =
      canonicalParams accessKey appKey defaults ts P ++
        [("sign", signatureOf secret accessKey appKey defaults ts P)] ∧
    ((canonicalParams accessKey appKey defaults ts P).map Prod.fst).Sorted (· < ·) ∧
    (∀ k, List.lookup k (canonicalParams accessKey appKey defaults ts P) =
      (List.lookup k (dictUpdate defaults
        [("access_key", accessKey), ("appkey", appKey), ("ts", toString ts)])).or
        (List.lookup k P)) ∧
    List.lookup "ts" (canonicalParams accessKey appKey defaults ts P) =
      some (toString ts) ∧
    signatureOf secret accessKey appKey defaults ts P =
      md5Hex (strBytes (encodeQuery (canonicalParams accessKey appKey defaults ts P)) ++
        strBytes secret) ∧
    (signatureOf secret accessKey appKey defaults ts P).length = 32 ∧
    ∀ c ∈ (signatureOf secret accessKey appKey defaults ts P).data,
      c ∈ "0123456789abcdef".data := by
  have hu : ((dictUpdate defaults
      [("access_key", accessKey), ("appkey", appKey), ("ts", toString ts)]).map
        Prod.fst).Nodup :=
    nodup_keys_dictUpdate _ _ hdef
      (by decide : (["access_key", "appkey", "ts"] : List String).Nodup)
  have hmerged : ((mergedParams accessKey appKey defaults ts P).map Prod.fst).Nodup :=
    nodup_keys_dictUpdate _ _ hP hu
  have hlk : ∀ k, List.lookup k (canonicalParams accessKey appKey defaults ts P) =
      (List.lookup k (dictUpdate defaults
        [("access_key", accessKey), ("appkey", appKey), ("ts", toString ts)])).or
        (List.lookup k P) := by
    intro k
    rw [canonicalParams, lookup_sortedDict, mergedParams, lookup_dictUpdate]
  refine ⟨rfl, ?_, hlk, ?_, rfl, (md5Hex_shape _).1, (md5Hex_shape _).2⟩
  · rw [canonicalParams, keys_sortedDict]
    have hsorted : ((mergedParams accessKey appKey defaults ts P).map Prod.fst
        |> List.insertionSort (· ≤ ·)).Sorted (· ≤ ·) :=
      List.sorted_insertionSort _ _
    have hnd : ((mergedParams accessKey appKey defaults ts P).map Prod.fst
        |> List.insertionSort (· ≤ ·)).Nodup :=
      (List.perm_insertionSort _ _).symm.nodup hmerged
    exact hsorted.lt_of_le hnd
  · rw [hlk "ts", lookup_dictUpdate]
    have htriple : List.lookup "ts"
        [("access_key", accessKey), ("appkey", appKey), ("ts", toString ts)] =
        some (toString ts) := rfl
    rw [htriple]
    rfl

/-- C3 witness: one concrete signing — the injected timestamp lands in
the canonical mapping and the keys come out strictly sorted. -/
theorem C3_witness :
    List.lookup "ts"
      (canonicalParams "ak" "ap" [("platform", "android")] 1234 [("aid", "42")]) =
      some "1234" ∧
    ((canonicalParams "ak" "ap" [("platform", "android")] 1234
      [("aid", "42")]).map Prod.fst).Sorted (· < ·) :=
  ⟨(C3_sign_canonicalization "h" "e" "sec" "ak" "ap" _ _ _ (by decide)
      (by decide)).2.2.2.1,
   (C3_sign_canonicalization "h" "e" "sec" "ak" "ap" _ _ _ (by decide)
      (by decide)).2.1⟩

/-- With distinct keys, lookup is invariant under permutation of the
association list — the dict a permuted insertion order builds answers
every lookup identically. -/
theorem lookup_perm_of_nodup_keys :
    ∀ {l1 l2 : List (String × String)}, l1.Perm l2 →
      (l1.map Prod.fst).Nodup → ∀ k, List.lookup k l1 = List.lookup k l2 := by
  intro l1 l2 h
  induction h with
  | nil => intro _ _; rfl
  | cons x h ih =>
    intro nd k
    obtain ⟨x1, x2⟩ := x
    rw [List.map_cons, List.nodup_cons] at nd
    have nd' := nd.2
    by_cases hk : k = x1
    · subst hk; simp [List.lookup_cons]
    · have hb : (k == x1) = false := beq_false_of_ne hk
      simp [List.lookup_cons, hb, ih nd' k]
  | swap x y l =>
    intro nd k
    obtain ⟨x1, x2⟩ := x
    obtain ⟨y1, y2⟩ := y
    have hxy : y1 ≠ x1 := by
      rw [List.map_cons, List.map_cons, List.nodup_cons] at nd
      intro hc
      exact nd.1 (List.mem_cons.mpr (Or.inl hc))
    by_cases hky : k = y1
    · subst hky
      have hb : (k == x1) = false := beq_false_of_ne (by exact hxy)
      simp [List.lookup_cons, hb]
    · have hby : (k == y1) = false := beq_false_of_ne hky
      by_cases hkx : k = x1
      · subst hkx
        simp [List.lookup_cons, hby]
      · have hbx : (k == x1) = false := beq_false_of_ne hkx
        simp [List.lookup_cons, hby, hbx]
  | trans h1 h2 ih1 ih2 =>
    intro nd k
    exact (ih1 nd k).trans (ih2 ((h1.map Prod.fst).nodup nd) k)

/-- `dict.update` on permuted originals yields permuted results. -/
theorem dictUpdate_perm {P1 P2 : List (String × String)}
    (u : List (String × String)) (h : P1.Perm P2)
    (hP1 : (P1.map Prod.fst).Nodup) :
    (dictUpdate P1 u).Perm (dictUpdate P2 u) := by
  unfold dictUpdate
  refine List.Perm.append (h.map _) ?_
  have hfe : ∀ kv ∈ u, ((List.lookup kv.1 P1).isNone : Bool) =
      ((List.lookup kv.1 P2).isNone : Bool) := by
    intro kv _
    rw [lookup_perm_of_nodup_keys h hP1 kv.1]
  rw [List.filter_congr hfe]

/-- The sorted rebuild is a canonical form: permuted dicts with distinct
keys rebuild to the very same list. -/
theorem sortedDict_perm_eq {d1 d2 : List (String × String)}
    (h : d1.Perm d2) (hd1 : (d1.map Prod.fst).Nodup) :
    sortedDict d1 = sortedDict d2 := by
  unfold sortedDict
  have hkeys : List.insertionSort (· ≤ ·) (d1.map Prod.fst) =
      List.insertionSort (· ≤ ·) (d2.map Prod.fst) := by
    refine List.eq_of_perm_of_sorted ?_ (List.sorted_insertionSort _ _)
      (List.sorted_insertionSort _ _)
    exact (List.perm_insertionSort _ _).trans ((h.map _).trans
      (List.perm_insertionSort _ _).symm)
  rw [hkeys]
  exact List.map_congr_left fun k _ => by
    rw [lookup_perm_of_nodup_keys h hd1 k]


/-- Big-endian numeric value of a byte list (used to place digests in a
finite type for the pigeonhole argument). -/
def bytesToNatBE (l : List Nat) : Nat := l.foldl (fun a b => a * 256 + b) 0

/-- Accumulator decomposition of the base-256 fold. -/
theorem foldlBE_acc : ∀ (l : List Nat) (acc : Nat),
    l.foldl (fun a b => a * 256 + b) acc =
      acc * 256 ^ l.length + l.foldl (fun a b => a * 256 + b) 0 := by
  intro l
  induction l with
  | nil => intro acc; simp
  | cons b l ih =>
    intro acc
    simp only [List.foldl_cons, List.length_cons]
    rw [ih (acc * 256 + b), ih (0 * 256 + b), pow_succ]
    ring

/-- The value of an `n`-byte list is below `256 ^ n`. -/
theorem bytesToNatBE_lt (l : List Nat) (h : ∀ b ∈ l, b < 256) :
    bytesToNatBE l < 256 ^ l.length := by
  induction l with
  | nil => simp [bytesToNatBE]
  | cons b l ih =>
    have hb : b < 256 := h b (List.mem_cons_self b l)
    have hrest := ih fun x hx => h x (List.mem_cons_of_mem b hx)
    show (b :: l).foldl (fun a b => a * 256 + b) 0 < 256 ^ (b :: l).length
    simp only [List.foldl_cons, List.length_cons]
    rw [foldlBE_acc l (0 * 256 + b)]
    have h1 : (0 * 256 + b) * 256 ^ l.length + bytesToNatBE l <
        (b + 1) * 256 ^ l.length := by
      simp only [Nat.zero_mul, Nat.zero_add, Nat.add_mul, Nat.one_mul]
      exact Nat.add_lt_add_left hrest _
    calc (0 * 256 + b) * 256 ^ l.length + l.foldl (fun a b => a * 256 + b) 0 <
        (b + 1) * 256 ^ l.length := h1
      _ ≤ 256 * 256 ^ l.length := Nat.mul_le_mul_right _ (by omega)
      _ = 256 ^ (l.length + 1) := by rw [pow_succ]; ring

/-- Equal values of equal-length byte lists force equal lists. -/
theorem bytesToNatBE_inj : ∀ (l1 l2 : List Nat), l1.length = l2.length →
    (∀ b ∈ l1, b < 256) → (∀ b ∈ l2, b < 256) →
    bytesToNatBE l1 = bytesToNatBE l2 → l1 = l2 := by
  intro l1
  induction l1 with
  | nil =>
    intro l2 hlen _ _ _
    exact (List.length_eq_zero.mp hlen.symm).symm ▸ rfl
  | cons b1 t1 ih =>
    intro l2 hlen h1 h2 heq
    cases l2 with
    | nil => exact absurd hlen (by simp)
    | cons b2 t2 =>
      have hlen2 : t1.length = t2.length := by simpa using hlen
      have hb1 : b1 < 256 := h1 b1 (List.mem_cons_self _ _)
      have hb2 : b2 < 256 := h2 b2 (List.mem_cons_self _ _)
      have ht1 := bytesToNatBE_lt t1 fun x hx => h1 x (List.mem_cons_of_mem _ hx)
      have ht2 := bytesToNatBE_lt t2 fun x hx => h2 x (List.mem_cons_of_mem _ hx)
      have hexp : bytesToNatBE (b1 :: t1) = b1 * 256 ^ t1.length + bytesToNatBE t1 := by
        show (b1 :: t1).foldl (fun a b => a * 256 + b) 0 = _
        simp only [List.foldl_cons]
        rw [foldlBE_acc t1 (0 * 256 + b1)]
        simp [bytesToNatBE]
      have hexp2 : bytesToNatBE (b2 :: t2) = b2 * 256 ^ t2.length + bytesToNatBE t2 := by
        show (b2 :: t2).foldl (fun a b => a * 256 + b) 0 = _
        simp only [List.foldl_cons]
        rw [foldlBE_acc t2 (0 * 256 + b2)]
        simp [bytesToNatBE]
      rw [hexp, hexp2, ← hlen2] at heq
      have hpow : 0 < 256 ^ t1.length := Nat.pos_pow_of_pos _ (by norm_num)
      have hb : b1 = b2 := by
        have e1 : (b1 * 256 ^ t1.length + bytesToNatBE t1) / 256 ^ t1.length = b1 := by
          rw [Nat.mul_comm b1, Nat.mul_add_div hpow, Nat.div_eq_of_lt ht1]
          omega
        have e2 : (b2 * 256 ^ t1.length + bytesToNatBE t2) / 256 ^ t1.length = b2 := by
          rw [Nat.mul_comm b2, Nat.mul_add_div hpow,
            Nat.div_eq_of_lt (hlen2 ▸ ht2)]
          omega
        rw [← e1, ← e2, heq]
      subst hb
      have htails : bytesToNatBE t1 = bytesToNatBE t2 := by
        exact Nat.add_left_cancel heq
      rw [ih t2 hlen2 (fun x hx => h1 x (List.mem_cons_of_mem _ hx))
        (fun x hx => h2 x (List.mem_cons_of_mem _ hx)) htails]

/-- C4 (amended): with the same injected timestamp, signing is
deterministic, and permuting the insertion order of the parameter dict
yields an identical final signed parameter set (hence an identical
signature).  The third part of the original claim — distinct merged
mappings always yield distinct signatures — is refuted by
the pigeonhole collision below and is therefore dropped. -/
theorem C4_deterministic_and_order_independent (secret accessKey appKey : String)
    (defaults : List (String × String)) (ts : Nat)
    (P1 P2 : List (String × String)) (hperm : P1.Perm P2)
    (hP1 : (P1.map Prod.fst).Nodup) (hdef : (defaults.map Prod.fst).Nodup) :
    signParams secret accessKey appKey defaults ts P1 =
      signParams secret accessKey appKey defaults ts P1 ∧
    signParams secret accessKey appKey defaults ts P1 =
      signParams secret accessKey appKey defaults ts P2 := by
  have hu : ((dictUpdate defaults
      [("access_key", accessKey), ("appkey", appKey), ("ts", toString ts)]).map
        Prod.fst).Nodup :=
    nodup_keys_dictUpdate _ _ hdef
      (by decide : (["access_key", "appkey", "ts"] : List String).Nodup)
  have hmerged : ((mergedParams accessKey appKey defaults ts P1).map Prod.fst).Nodup :=
    nodup_keys_dictUpdate _ _ hP1 hu
  have hcanon : canonicalParams accessKey appKey defaults ts P1 =
      canonicalParams accessKey appKey defaults ts P2 :=
    sortedDict_perm_eq (dictUpdate_perm _ hperm hP1) hmerged
  refine ⟨rfl, ?_⟩
  unfold signParams signatureOf
  rw [hcanon]

/-- C4 witness: two insertion orders of the same two parameters sign
identically. -/
theorem C4_witness :
    signParams "sec" "ak" "ap" [] 0 [("b", "2"), ("a", "1")] =
      signParams "sec" "ak" "ap" [] 0 [("a", "1"), ("b", "2")] :=
  (C4_deterministic_and_order_independent "sec" "ak" "ap" [] 0
    [("b", "2"), ("a", "1")] [("a", "1"), ("b", "2")]
    (by decide) (by decide) (by decide)).2

/-- C4 counterexample: the distinctness part of the claim is false as a
universal statement.  The signature is 16 bytes of MD5 output, so the map
from parameter mappings to signatures lands in a finite type while
infinitely many mappings stay distinct after merging; by pigeonhole two
distinct-after-merge mappings share a signature.  (The collision is
non-constructive — actually exhibiting MD5 collision inputs is a
cryptanalytic computation — but the universal claim is nonetheless
provably false.) -/
theorem C4_signature_collision_exists :
    ¬ (∀ (P1 P2 : List (String × String)) (ts : Nat),
        P1 ≠ P2 →
        mergedParams "ak" "ap" [] ts P1 ≠ mergedParams "ak" "ap" [] ts P2 →
        signatureOf "sec" "ak" "ap" [] ts P1 ≠
          signatureOf "sec" "ak" "ap" [] ts P2) := by
  intro hclaim
  let pn : Nat → List (String × String) := fun n => [("zzz", ⟨List.replicate n 'b'⟩)]
  let msg : Nat → List Nat := fun n =>
    strBytes (encodeQuery (canonicalParams "ak" "ap" [] 0 (pn n))) ++ strBytes "sec"
  let f : Nat → Fin (256 ^ 16) := fun n =>
    ⟨bytesToNatBE (md5Digest (msg n)), by
      have h := bytesToNatBE_lt (md5Digest (msg n)) (md5Digest_bytes_lt _)
      rwa [md5Digest_length] at h⟩
  obtain ⟨n, m, hnm, hf⟩ := Finite.exists_ne_map_eq_of_infinite f
  have hrepl : (⟨List.replicate n 'b'⟩ : String) ≠ ⟨List.replicate m 'b'⟩ := by
    intro hc
    have h1 : List.replicate n 'b' = List.replicate m 'b' := congrArg String.data hc
    have h2 := congrArg List.length h1
    simp at h2
    exact hnm h2
  have hdig : md5Digest (msg n) = md5Digest (msg m) := by
    have hval : bytesToNatBE (md5Digest (msg n)) = bytesToNatBE (md5Digest (msg m)) :=
      congrArg Fin.val hf
    exact bytesToNatBE_inj _ _ (by rw [md5Digest_length, md5Digest_length])
      (md5Digest_bytes_lt _) (md5Digest_bytes_lt _) hval
  have hsig : signatureOf "sec" "ak" "ap" [] 0 (pn n) =
      signatureOf "sec" "ak" "ap" [] 0 (pn m) := by
    show md5Hex (msg n) = md5Hex (msg m)
    unfold md5Hex
    rw [hdig]
  have hP : pn n ≠ pn m := by
    intro hc
    have := congrArg (List.lookup "zzz") hc
    simp [pn, List.lookup] at this
    exact hrepl this
  have hmer : mergedParams "ak" "ap" [] 0 (pn n) ≠ mergedParams "ak" "ap" [] 0 (pn m) := by
    intro hc
    have h0 := congrArg (List.lookup "zzz") hc
    rw [mergedParams, mergedParams, lookup_dictUpdate (pn n) _ "zzz",
      lookup_dictUpdate (pn m) _ "zzz"] at h0
    have hnone : List.lookup "zzz" (dictUpdate []
        [("access_key", "ak"), ("appkey", "ap"), ("ts", toString 0)]) = none := rfl
    rw [hnone] at h0
    simp [pn, List.lookup] at h0
    exact hrepl h0
  exact hclaim (pn n) (pn m) 0 hP hmer hsig

/-! ## Response parsing (`hibiapi/api/bilibili/api/base.py`, lines 64–71)

`BaseBilibiliEndpoint._parse_json` first tries `json.loads` on the body;
only on `json.JSONDecodeError` does it re-parse the substring strictly
between the first `(` and the last `)` (stripped) — the JSONP envelope.
`json.loads` (CPython's strict JSON decoder) is embedded below: values
are objects, arrays, strings, numbers (integers kept exact; decimal
mantissa/exponent recorded for non-integers instead of binary float
rounding, which no claim touches), booleans, `null`, and Python's
`NaN`/`Infinity` extensions; trailing data after the value is an error.
A `\uXXXX` escape that is a lone surrogate is not representable as a
Lean `Char` and parses as an error in this model (Python would build a
lone-surrogate `str`); paired surrogates combine as in CPython. -/

/-- A decoded JSON value. -/
inductive Json
  | null
  | bool (b : Bool)
  | jint (n : Int)
  | jfloat (mantissa : Int) (exp10 : Int)
  | jnan
  | jinf (pos : Bool)
  | str (s : String)
  | arr (elems : List Json)
  | obj (members : List (String × Json))

/-- JSON whitespace (`' '`, `'\t'`, `'\n'`, `'\r'`). -/
def isJsonWs (c : Char) : Bool := c = ' ' || c = '\t' || c = '\n' || c = '\r'

/-- Skip JSON whitespace. -/
def skipWs (cs : List Char) : List Char := cs.dropWhile isJsonWs

/-- Numeric value of a decimal digit run. -/
def digitsToNat (ds : List Char) : Nat :=
  ds.foldl (fun a c => a * 10 + (c.toNat - 48)) 0

/-- Parse the body of a JSON string after the opening quote, handling
the escape sequences of RFC 8259 (including surrogate-pair `\uXXXX`). -/
def parseStringBody : List Char → List Char → Option (String × List Char)
  | acc, '"' :: rest => some (⟨acc.reverse⟩, rest)
  | acc, '\\' :: 'u' :: h1 :: h2 :: h3 :: h4 :: rest =>
    match hexCharVal h1, hexCharVal h2, hexCharVal h3, hexCharVal h4 with
    | some v1, some v2, some v3, some v4 =>
      let cp := ((v1 * 16 + v2) * 16 + v3) * 16 + v4
      if 0xD800 ≤ cp ∧ cp ≤ 0xDBFF then
        match rest with
        | '\\' :: 'u' :: g1 :: g2 :: g3 :: g4 :: rest2 =>
          match hexCharVal g1, hexCharVal g2, hexCharVal g3, hexCharVal g4 with
          | some w1, some w2, some w3, some w4 =>
            let lo := ((w1 * 16 + w2) * 16 + w3) * 16 + w4
            if 0xDC00 ≤ lo ∧ lo ≤ 0xDFFF then
              parseStringBody
                (Char.ofNat (0x10000 + (cp - 0xD800) * 1024 + (lo - 0xDC00)) :: acc)
                rest2
            else none
          | _, _, _, _ => none
        | _ => none
      else if 0xDC00 ≤ cp ∧ cp ≤ 0xDFFF then none
      else parseStringBody (Char.ofNat cp :: acc) rest
    | _, _, _, _ => none
  | acc, '\\' :: e :: rest =>
    if e = '"' then parseStringBody ('"' :: acc) rest
    else if e = '\\' then parseStringBody ('\\' :: acc) rest
    else if e = '/' then parseStringBody ('/' :: acc) rest
    else if e = 'b' then parseStringBody ('\x08' :: acc) rest
    else if e = 'f' then parseStringBody ('\x0c' :: acc) rest
    else if e = 'n' then parseStringBody ('\n' :: acc) rest
    else if e = 'r' then parseStringBody ('\r' :: acc) rest
    else if e = 't' then parseStringBody ('\t' :: acc) rest
    else none
  | acc, c :: rest =>
    if c.toNat < 32 then none else parseStringBody (c :: acc) rest
  | _, [] => none

/-- Parse a JSON number per the `json` module's grammar
`-?(0|[1-9]\d*)(\.\d+)?([eE][-+]?\d+)?`, plus the module's
`Infinity` extension under a leading minus. -/
def parseNumber (cs : List Char) : Option (Json × List Char) :=
  let (neg, cs1) := match cs with
    | '-' :: r => (true, r)
    | _ => (false, cs)
  match cs1 with
  | 'I' :: 'n' :: 'f' :: 'i' :: 'n' :: 'i' :: 't' :: 'y' :: rest =>
    if neg then some (.jinf false, rest) else none
  | _ =>
    let (intDigits, rest1) : List Char × List Char :=
      match cs1 with
      | '0' :: r => (['0'], r)
      | _ => (cs1.takeWhile Char.isDigit, cs1.dropWhile Char.isDigit)
    if intDigits = [] then none
    else
      let (fracDigits, rest2) : List Char × List Char :=
        match rest1 with
        | '.' :: r =>
          if (r.takeWhile Char.isDigit) = [] then ([], rest1)
          else (r.takeWhile Char.isDigit, r.dropWhile Char.isDigit)
        | _ => ([], rest1)
      let expPart : Option (Int × List Char) :=
        match rest2 with
        | e :: r =>
          if e = 'e' ∨ e = 'E' then
            let (esign, r1) : Bool × List Char := match r with
              | '+' :: r2 => (false, r2)
              | '-' :: r2 => (true, r2)
              | _ => (false, r)
            let eds := r1.takeWhile Char.isDigit
            if eds = [] then none
            else some (if esign then -(digitsToNat eds : Int) else (digitsToNat eds : Int),
              r1.dropWhile Char.isDigit)
          else none
        | [] => none
      let intVal : Int := digitsToNat intDigits
      match fracDigits, expPart with
      | [], none =>
        some (.jint (if neg then -intVal else intVal), rest2)
      | _, _ =>
        let (expVal, rest3) := expPart.getD (0, rest2)
        let m : Int := intVal * (10 : Int) ^ fracDigits.length + digitsToNat fracDigits
        some (.jfloat (if neg then -m else m) (expVal - fracDigits.length), rest3)

mutual

/-- Parse one JSON value (strict mode of `json.loads`, with the
`NaN`/`Infinity` extensions).  `fuel` exceeds the input length, so a
well-formed recursion never exhausts it. -/
def parseValue : Nat → List Char → Option (Json × List Char)
  | 0, _ => none
  | fuel + 1, cs =>
    match skipWs cs with
    | '\x7b' :: rest =>
      match skipWs rest with
      | '\x7d' :: rest2 => some (.obj [], rest2)
      | _ => (parseMembers fuel (skipWs rest)).map fun p => (.obj p.1, p.2)
    | '[' :: rest =>
      match skipWs rest with
      | ']' :: rest2 => some (.arr [], rest2)
      | _ => (parseElements fuel (skipWs rest)).map fun p => (.arr p.1, p.2)
    | 't' :: 'r' :: 'u' :: 'e' :: rest => some (.bool true, rest)
    | 'f' :: 'a' :: 'l' :: 's' :: 'e' :: rest => some (.bool false, rest)
    | 'n' :: 'u' :: 'l' :: 'l' :: rest => some (.null, rest)
    | 'N' :: 'a' :: 'N' :: rest => some (.jnan, rest)
    | 'I' :: 'n' :: 'f' :: 'i' :: 'n' :: 'i' :: 't' :: 'y' :: rest =>
      some (.jinf true, rest)
    | '"' :: rest => (parseStringBody [] rest).map fun p => (.str p.1, p.2)
    | c :: rest =>
      if c = '-' ∨ c.isDigit then parseNumber (c :: rest) else none
    | [] => none

/-- Parse the members of a JSON object after its opening brace. -/
def parseMembers : Nat → List Char → Option (List (String × Json) × List Char)
  | 0, _ => none
  | fuel + 1, cs =>
    match skipWs cs with
    | '"' :: rest =>
      match parseStringBody [] rest with
      | none => none
      | some (k, r1) =>
        match skipWs r1 with
        | ':' :: r2 =>
          match parseValue fuel r2 with
          | none => none
          | some (v, r3) =>
            match skipWs r3 with
            | ',' :: r4 => (parseMembers fuel r4).map fun p => ((k, v) :: p.1, p.2)
            | '\x7d' :: r4 => some ([(k, v)], r4)
            | _ => none
        | _ => none
    | _ => none

/-- Parse the elements of a JSON array after its opening bracket. -/
def parseElements : Nat → List Char → Option (List Json × List Char)
  | 0, _ => none
  | fuel + 1, cs =>
    match parseValue fuel cs with
    | none => none
    | some (v, r1) =>
      match skipWs r1 with
      | ',' :: r2 => (parseElements fuel r2).map fun p => (v :: p.1, p.2)
      | ']' :: r2 => some ([v], r2)
      | _ => none

end

/-- `json.loads`: parse one value and require only whitespace after it
(`Extra data` otherwise); `none` models `json.JSONDecodeError`. -/
def json_loads (s : String) : Option Json :=
  match parseValue (s.data.length + 1) s.data with
  | some (v, rest) => if skipWs rest = [] then some v else none
  | none => none

/-- Python `str.find(c)`: index of the first occurrence, or `-1`. -/
def pyFind (s : String) (c : Char) : Int :=
  match s.data.findIdx? (· = c) with
  | some i => (i : Int)
  | none => -1

/-- Python `str.rfind(c)`: index of the last occurrence, or `-1`. -/
def pyRFind (s : String) (c : Char) : Int :=
  match s.data.reverse.findIdx? (· = c) with
  | some i => (s.data.length : Int) - 1 - (i : Int)
  | none => -1

/-- Python slicing `s[a:b]` with negative-index and clamping semantics. -/
def pySlice (s : String) (a b : Int) : String :=
  let n := s.data.length
  let norm : Int → Nat := fun i =>
    if i < 0 then (if i + n < 0 then 0 else (i + n).toNat) else min i.toNat n
  ⟨(s.data.take (norm b)).drop (norm a)⟩

/-- Python `str.strip()` over ASCII whitespace. -/
def pyStrip (s : String) : String :=
  let ws : Char → Bool := fun c =>
    c = ' ' || c = '\t' || c = '\n' || c = '\r' || c = '\x0b' || c = '\x0c'
  ⟨((s.data.dropWhile ws).reverse.dropWhile ws).reverse⟩

/-- `BaseBilibiliEndpoint._parse_json` (lines 64–71): plain `json.loads`
first; on `json.JSONDecodeError`, parse the stripped substring strictly
between the first `(` (index `right` in the source) and the last `)`
(index `left`), `content[right + 1 : left]`; a failure there propagates
as `json.JSONDecodeError`. -/
def parse_json (content : String) : Except PyExc Json :=
  match json_loads content with
  | some v => .ok v
  | none =>
    match json_loads (pyStrip (pySlice content
        (pyFind content '(' + 1) (pyRFind content ')'))) with
    | some v => .ok v
    | none => .error ⟨.jsonDecodeError, 0⟩

/-- C6: the response parser tries plain JSON first and returns its result
on success; only on failure does it parse the stripped substring strictly
between the first `(` and the last `)`; the enveloped body
`callback({"a":1})` fails the plain path and decodes via the envelope,
while the plain body `{"a":1}` decodes directly, both to `{"a": 1}`. -/
theorem C6_parse_json_plain_then_envelope :
    (∀ content : String, parse_json content =
      match json_loads content with
      | some v => .ok v
      | none =>
        match json_loads (pyStrip (pySlice content
            (pyFind content '(' + 1) (pyRFind content ')'))) with
        | some v => Except.ok v
        | none => Except.error ⟨.jsonDecodeError, 0⟩) ∧
    json_loads "callback(\x7b\"a\":1\x7d)" = none ∧
    parse_json "callback(\x7b\"a\":1\x7d)" = .ok (.obj [("a", .jint 1)]) ∧
    json_loads "\x7b\"a\":1\x7d" = some (.obj [("a", .jint 1)]) ∧
    parse_json "\x7b\"a\":1\x7d" = .ok (.obj [("a", .jint 1)]) :=
  ⟨fun _ => rfl, rfl, rfl, rfl, rfl⟩
